import Mathlib

/-!
# Verification development for the `ggpack` container reader

Shallow embedding of the Go package `ggpack` (Thimbleweed Park data-file
reader).  Byte buffers are modelled as `List Nat` whose elements are intended
to lie below 256; Go's in-place mutation is modelled by returning the new
buffer, and the cursor (`*[]byte` advanced in place) by returning the
remaining suffix.  Go `int32` values are modelled as `Int` via `toInt32`.
Recursive decoding receives explicit fuel (every recursive call consumes one
unit); fuel exhaustion is a dedicated result `noFuel` that corresponds to no
Go behaviour, so any theorem about a `noFuel`-free result is a theorem about
the Go code.
-/

namespace GGPack

/-- The fixed 16-byte XOR table `magicBytes` of the source. -/
def magicBytes : List Nat :=
  [0x4f, 0xd0, 0xa0, 0xac,
   0x4a, 0x5b, 0xb9, 0xe5,
   0x93, 0x79, 0x45, 0xa5,
   0xc1, 0xcb, 0x31, 0x93]

/-- `DecodeXOR`'s multiplier constant: `code = 0x6d` unless the method is 2,
then `0xad`. -/
def codeOf (method : Nat) : Nat :=
  if method ≠ 2 then 0x6d else 0xad

/-- The first pass of `DecodeXOR`: rolling-state chained XOR.
Go: `x := v ^ magicBytes[i&0xf] ^ byte(i*code); buf[i] = x ^ prev; prev = x`.
`byte (i*code)` is `(i * code) % 256`. -/
def chain (code : Nat) : Nat → Nat → List Nat → List Nat
  | _, _, [] => []
  | i, prev, v :: rest =>
    let x := v ^^^ magicBytes.getD (i &&& 0xf) 0 ^^^ ((i * code) % 256)
    (x ^^^ prev) :: chain code (i + 1) x rest

/-- One iteration body of the second pass: `buf[i] ^= 0x0d; buf[i+1] ^= 0x0d`. -/
def flip2 (buf : List Nat) (i : Nat) : List Nat :=
  let b1 := buf.set i (buf.getD i 0 ^^^ 0x0d)
  b1.set (i + 1) (b1.getD (i + 1) 0 ^^^ 0x0d)

/-- The second pass of `DecodeXOR`:
`for i := 5; i+1 < len(buf); i += 16 { buf[i] ^= 0x0d; buf[i+1] ^= 0x0d }`.
The loop is fueled; any fuel with `buf.length ≤ i + 1 + 16 * fuel` runs the
loop to completion, and `decodeXOR` passes `buf.length` which always
suffices. -/
def pass2go : Nat → List Nat → Nat → List Nat
  | 0, buf, _ => buf
  | fuel + 1, buf, i =>
    if i + 1 < buf.length then pass2go fuel (flip2 buf i) (i + 16) else buf

/-- `func (r *Reader) DecodeXOR(buf []byte)` of the source: the chained XOR
pass with rolling state initialised to `byte(len(buf))`, followed (for every
method except 0) by the periodic `0x0d` pass. -/
def decodeXOR (method : Nat) (buf : List Nat) : List Nat :=
  let p1 := chain (codeOf method) 0 (buf.length % 256) buf
  if method ≠ 0 then pass2go p1.length p1 5 else p1

/-- Inverse of `chain` (not in the source; constructed to witness that the
cipher is invertible): unrolls the rolling-state chaining. -/
def unchain (code : Nat) : Nat → Nat → List Nat → List Nat
  | _, _, [] => []
  | i, prev, o :: rest =>
    let x := o ^^^ prev
    (x ^^^ magicBytes.getD (i &&& 0xf) 0 ^^^ ((i * code) % 256)) ::
      unchain code (i + 1) x rest

/-- Inverse of `decodeXOR` (not in the source; constructed to witness that
the cipher is invertible): undo the `0x0d` pass (its own inverse), then
unroll the chain. -/
def encodeXOR (method : Nat) (buf : List Nat) : List Nat :=
  let p2 := if method ≠ 0 then pass2go buf.length buf 5 else buf
  unchain (codeOf method) 0 (buf.length % 256) p2

/-- Little-endian 32-bit read at `pos` (out-of-range bytes default to 0;
call sites in the model guard the length exactly where the source does). -/
def leUint32 (buf : List Nat) (pos : Nat) : Nat :=
  buf.getD pos 0 + 256 * buf.getD (pos + 1) 0 +
    65536 * buf.getD (pos + 2) 0 + 16777216 * buf.getD (pos + 3) 0

/-- Reinterpret a `uint32` value as Go `int32` (two's complement). -/
def toInt32 (u : Nat) : Int :=
  if u < 2147483648 then (u : Int) else (u : Int) - 4294967296

/-- The Method Prober's signature test: the first four deciphered bytes read
as little-endian `uint32` equal `0x04030201`. -/
def signatureOK (buf : List Nat) : Bool :=
  leUint32 buf 0 == 0x04030201

/-- The method search of `ReadPack`: `for r.method = 3; r.method >= 0;
r.method--`, keeping the first method whose deciphered buffer carries the
signature.  Each Go iteration re-reads the raw bytes before deciphering, so
every attempt decodes the same `raw`. -/
def probeMethod (raw : List Nat) : Option Nat :=
  [3, 2, 1, 0].find? fun m => signatureOK (decodeXOR m raw)

/-- The distinct failure reasons of the package, one constructor per Go
error value / `fmt.Errorf` call site.  `tooShort` is the shared
`errTooShort = errors.New("buffer too short")`. -/
inductive GGError where
  | tooShort
  | unsupportedVersion
  | ploOutOfRange
  | markerNotFound
  | nonHash
  | unterminatedHash
  | unterminatedArray
  | invalidOffsetIndex (idx : Int)
  | invalidOffset (ofs : Int)
  | invalidInteger (text : List Nat)
  | invalidDouble (text : List Nat)
  | unsupportedValue (tag : Nat)
  deriving Repr, DecidableEq

/-- The `ReadPack` probe including its error paths: `errTooShort` when the
directory block is under four bytes (checked inside the loop right after
deciphering, but deciphering preserves the length, so the check is hoisted),
`unsupported package version` when no method yields the signature. -/
def probeResult (raw : List Nat) : Except GGError (Nat × List Nat) :=
  if raw.length < 4 then .error .tooShort
  else
    match probeMethod raw with
    | some m => .ok (m, decodeXOR m raw)
    | none => .error .unsupportedVersion

/-- The offset-table loop of `readOffsets`:
`for pos := plo + 1; int(pos+4) < len(buf); pos += 4`, reading a 32-bit LE
word each step, stopping (without appending) at the `0xffffffff` sentinel,
and appending `int32(offset)` otherwise.  Fueled; each iteration advances
`pos` by 4, so fuel `buf.length` always runs the loop to completion. -/
def offLoop : Nat → List Nat → Nat → List Int
  | 0, _, _ => []
  | fuel + 1, buf, pos =>
    if pos + 4 < buf.length then
      let offset := leUint32 buf pos
      if offset = 0xffffffff then []
      else toInt32 offset :: offLoop fuel buf (pos + 4)
    else []

/-- `func (r *Reader) readOffsets(buf []byte) error` of the source. -/
def readOffsets (buf : List Nat) : Except GGError (List Int) :=
  if buf.length < 12 then .error .tooShort
  else
    let plo := leUint32 buf 8
    if plo < 12 ∨ buf.length - 4 ≤ plo then .error .ploOutOfRange
    else if buf.getD plo 0 ≠ 7 then .error .markerNotFound
    else .ok (offLoop buf.length buf (plo + 1))

/-- The offset-table loop as the claim words it: entries keep being read
while at least 4 bytes remain (`pos + 4 ≤ len`), i.e. reading stops only
when fewer than 4 bytes remain. -/
def claimOffLoop : Nat → List Nat → Nat → List Int
  | 0, _, _ => []
  | fuel + 1, buf, pos =>
    if pos + 4 ≤ buf.length then
      let offset := leUint32 buf pos
      if offset = 0xffffffff then []
      else toInt32 offset :: claimOffLoop fuel buf (pos + 4)
    else []

/-- `readOffsets` as the claim words it (only the loop's stopping distance
differs from the source). -/
def claimReadOffsets (buf : List Nat) : Except GGError (List Int) :=
  if buf.length < 12 then .error .tooShort
  else
    let plo := leUint32 buf 8
    if plo < 12 ∨ buf.length - 4 ≤ plo then .error .ploOutOfRange
    else if buf.getD plo 0 ≠ 7 then .error .markerNotFound
    else .ok (claimOffLoop (buf.length + 1) buf (plo + 1))

/-- The offset-table loop as the amended claim words it: an entry is read
only while at least 5 bytes remain past `pos` (so the final four bytes of
the block are never read as an entry). -/
def amendOffLoop : Nat → List Nat → Nat → List Int
  | 0, _, _ => []
  | fuel + 1, buf, pos =>
    if 5 ≤ buf.length - pos then
      let offset := leUint32 buf pos
      if offset = 0xffffffff then []
      else toInt32 offset :: amendOffLoop fuel buf (pos + 4)
    else []

/-- `readOffsets` as the amended claim words it. -/
def amendReadOffsets (buf : List Nat) : Except GGError (List Int) :=
  if buf.length < 12 then .error .tooShort
  else
    let plo := leUint32 buf 8
    if plo < 12 ∨ buf.length - 4 ≤ plo then .error .ploOutOfRange
    else if buf.getD plo 0 ≠ 7 then .error .markerNotFound
    else .ok (amendOffLoop buf.length buf (plo + 1))

/-- `func readByte(buf *[]byte) (byte, error)`: pop the first byte of the
cursor or fail with `errTooShort`. -/
def readByte (cur : List Nat) : Option (Nat × List Nat) :=
  match cur with
  | [] => none
  | b :: rest => some (b, rest)

/-- `func readInt(buf *[]byte) (int32, error)`: read a little-endian
`int32` off the cursor or fail with `errTooShort`. -/
def readInt (cur : List Nat) : Option (Int × List Nat) :=
  if cur.length < 4 then none
  else some (toInt32 (leUint32 cur 0), cur.drop 4)

/-- The zero-terminated scan of `readString`: bytes up to (excluding) the
first zero byte, or all bytes if there is none. -/
def takeUntilZero : List Nat → List Nat
  | [] => []
  | b :: rest => if b = 0 then [] else b :: takeUntilZero rest

/-- `func (r *Reader) readString(buf []byte, offset int32) (string, error)`
of the source: bounds-check the table index, then the stored byte offset,
then scan to the next zero byte.  Strings are modelled as raw byte lists
(Go strings are byte strings). -/
def readString (offsets : List Int) (buf : List Nat) (offset : Int) :
    Except GGError (List Nat) :=
  if offset < 0 ∨ (offsets.length : Int) ≤ offset then
    .error (.invalidOffsetIndex offset)
  else
    let ofs := offsets.getD offset.toNat 0
    if ofs < 0 ∨ (buf.length : Int) ≤ ofs then .error (.invalidOffset ofs)
    else .ok (takeUntilZero (buf.drop ofs.toNat))

/-- Go string comparison `<` on byte strings (byte-wise lexicographic). -/
def bytesLt : List Nat → List Nat → Bool
  | [], [] => false
  | [], _ :: _ => true
  | _ :: _, [] => false
  | a :: as, b :: bs => if a < b then true else if a = b then bytesLt as bs else false

/-- `strings.ToLower` on a single byte, restricted to ASCII (the only case
arising in this format's keys; Go's `ToLower` agrees on ASCII input). -/
def lowerByte (b : Nat) : Nat :=
  if 0x41 ≤ b ∧ b ≤ 0x5a then b + 0x20 else b

/-- `strings.ToLower` on a byte string (ASCII model, see `lowerByte`). -/
def lowerBytes (s : List Nat) : List Nat := s.map lowerByte

/-- Go's `sort.Search(n, f)` loop:
`i, j := 0, n; for i < j { h := (i+j)/2; if !f(h) { i = h+1 } else { j = h } }; return i`.
Fueled; `j - i` starts at `n` and strictly shrinks each iteration, so fuel
`n` always runs the loop to completion. -/
def sortSearchGo : Nat → Nat → Nat → (Nat → Bool) → Nat
  | 0, i, _, _ => i
  | fuel + 1, i, j, f =>
    if i < j then
      let h := (i + j) / 2
      if f h then sortSearchGo fuel i h f else sortSearchGo fuel (h + 1) j f
    else i

/-- `sort.Search n f`. -/
def sortSearch (n : Nat) (f : Nat → Bool) : Nat := sortSearchGo n 0 n f

/-- The result of Go's `strconv.ParseFloat(s, 64)`: a finite value (kept as
an exact rational; IEEE-754 rounding is not modelled), an infinity, or NaN. -/
inductive GoFloat where
  | finite (q : ℚ)
  | inf (neg : Bool)
  | nan
  deriving Repr, DecidableEq

/-- The decoded Value tree: one constructor per `ValueType` tag of the
source (`Null=1, Hash=2, Array=3, String=4, Integer=5, Double=6`).  Strings
and hash keys are raw byte strings. -/
inductive Value where
  | null
  | hash (entries : List (List Nat × Value))
  | arr (elems : List Value)
  | str (text : List Nat)
  | integer (n : Int)
  | double (d : GoFloat)

/-- `func (v *Value) Find(name string) *Value` of the source: a
`sort.Search` with predicate `hash[i].Key >= name` on the raw keys, then a
final check `name == strings.ToLower(hash[idx].Key)`.  Only the stored key
is lower-cased, and only in the final check. -/
def find (v : Value) (name : List Nat) : Option Value :=
  match v with
  | .hash entries =>
    let idx := sortSearch entries.length
      fun i => ! bytesLt (entries.getD i ([], .null)).1 name
    if idx < entries.length then
      if name = lowerBytes (entries.getD idx ([], .null)).1 then
        some (entries.getD idx ([], .null)).2
      else none
    else none
  | _ => none

/-- `value.hash` is sorted in `readHash` by
`sort.Slice(value.hash, func(i, j int) bool { return hash[i].Key < hash[j].Key })`.
`sort.Slice` is not a stable sort and Go fixes no order for equal keys; the
model uses an insertion sort with the same comparison (for distinct keys the
result is the same ordered sequence). -/
def insertByKey (e : List Nat × Value) :
    List (List Nat × Value) → List (List Nat × Value)
  | [] => [e]
  | f :: rest => if bytesLt e.1 f.1 then e :: f :: rest else f :: insertByKey e rest

/-- See `insertByKey`. -/
def sortByKey (l : List (List Nat × Value)) : List (List Nat × Value) :=
  l.foldr insertByKey []

/-- Is `b` an ASCII decimal digit? -/
def isDigit (b : Nat) : Bool := 0x30 ≤ b && b ≤ 0x39

/-- Split a byte string into its longest prefix of decimal digits and the
rest. -/
def splitDigits : List Nat → List Nat × List Nat
  | [] => ([], [])
  | b :: rest =>
    if isDigit b then
      let (ds, r) := splitDigits rest
      (b :: ds, r)
    else ([], b :: rest)

/-- Value of a string of decimal digit bytes. -/
def digitsVal (ds : List Nat) : Nat :=
  ds.foldl (fun acc d => acc * 10 + (d - 0x30)) 0

/-- `strconv.ParseInt(s, 10, 64)` (the call in `readValue`'s Integer case):
an optional single sign, then one or more decimal digits, with the value
required to fit in `int64`; any other input (including Go's `ErrRange`
overflow case) is an error.  Base 10 is passed explicitly, so Go permits no
digit-grouping underscores here. -/
def goParseInt64 (s : List Nat) : Option Int :=
  let core : List Nat → Bool := fun ds => ds ≠ [] && ds.all isDigit
  match s with
  | 0x2b :: ds =>
    if core ds ∧ digitsVal ds ≤ 2 ^ 63 - 1 then some (digitsVal ds) else none
  | 0x2d :: ds =>
    if core ds ∧ digitsVal ds ≤ 2 ^ 63 then some (-(digitsVal ds : Int)) else none
  | ds =>
    if core ds ∧ digitsVal ds ≤ 2 ^ 63 - 1 then some (digitsVal ds) else none

/-- Largest finite `float64`, `(2^53 - 1) * 2^971`. -/
def maxFloat64 : ℚ := (2 ^ 53 - 1) * 2 ^ 971

/-- Exponent part after the `e`/`E` of a decimal float literal: an optional
sign and one or more digits. -/
def parseExpPart (s : List Nat) : Option Int :=
  match s with
  | 0x2b :: ds => if ds ≠ [] ∧ ds.all isDigit then some (digitsVal ds) else none
  | 0x2d :: ds => if ds ≠ [] ∧ ds.all isDigit then some (-(digitsVal ds : Int)) else none
  | ds => if ds ≠ [] ∧ ds.all isDigit then some (digitsVal ds) else none

/-- Exact value of a decimal mantissa with `fpart.length` fraction digits
and decimal exponent `e`. -/
def decVal (ipart fpart : List Nat) (e : Int) : ℚ :=
  (digitsVal (ipart ++ fpart) : ℚ) * 10 ^ (e - fpart.length)

/-- An unsigned decimal float literal: digits, an optional `.` with further
digits (at least one digit in the mantissa overall), an optional `e`/`E`
exponent. -/
def parseDec (s : List Nat) : Option ℚ :=
  let (ipart, rest1) := splitDigits s
  match rest1 with
  | [] => if ipart = [] then none else some (decVal ipart [] 0)
  | 0x2e :: rest2 =>
    let (fpart, rest3) := splitDigits rest2
    if ipart = [] ∧ fpart = [] then none
    else
      match rest3 with
      | [] => some (decVal ipart fpart 0)
      | 0x65 :: es => (parseExpPart es).map (decVal ipart fpart)
      | 0x45 :: es => (parseExpPart es).map (decVal ipart fpart)
      | _ => none
  | 0x65 :: es => if ipart = [] then none else (parseExpPart es).map (decVal ipart [])
  | 0x45 :: es => if ipart = [] then none else (parseExpPart es).map (decVal ipart [])
  | _ => none

/-- `strconv.ParseFloat(s, 64)` (the call in `readValue`'s Double case),
modelled over exact rationals: `nan` (unsigned), optionally signed
`inf`/`infinity` (case-insensitive), or a signed decimal literal; values
beyond the largest finite `float64` are Go's `ErrRange` and hence errors to
the caller.  Outside the model (documented simplifications): hexadecimal
float literals and digit-grouping underscores, which Go would accept, and
the exact IEEE-754 rounding of finite values (kept as exact rationals; equal
to Go's result whenever the literal is exactly representable, as in every
value this development evaluates). -/
def goParseFloat64 (s : List Nat) : Option GoFloat :=
  if lowerBytes s = [0x6e, 0x61, 0x6e] then some .nan
  else
    let (neg, body) :=
      match s with
      | 0x2b :: rest => (false, rest)
      | 0x2d :: rest => (true, rest)
      | _ => (false, s)
    if lowerBytes body = [0x69, 0x6e, 0x66] ∨
        lowerBytes body = [0x69, 0x6e, 0x66, 0x69, 0x6e, 0x69, 0x74, 0x79] then
      some (.inf neg)
    else
      match parseDec body with
      | none => none
      | some q0 =>
        let q := if neg then -q0 else q0
        if q < -maxFloat64 ∨ maxFloat64 < q then none else some (.finite q)

/-- A pending operation of the recursive value decoder.  The four
constructors correspond to the source's `readHash`, the entry loop inside
`readHash`, `readValue`, and the element loop inside `readValue`'s Array
case.  They are decoded by the single fuel-indexed function `decodeGo` so
that the mutual recursion of the source becomes structural recursion on
fuel (every recursive call consumes one unit of fuel). -/
inductive DecReq where
  | hash (cur : List Nat)
  | hashEntries (k : Nat) (cur : List Nat) (acc : List (List Nat × Value))
  | value (cur : List Nat)
  | arrayElems (k : Nat) (cur : List Nat) (acc : List Value)

/-- Outcome of a decoder operation: a decoded value / entry list / element
list together with the advanced cursor, a Go error return, a Go runtime
panic, or fuel exhaustion (`noFuel` corresponds to no Go behaviour — it
only signals that the chosen fuel did not cover the recursion depth). -/
inductive DecRes where
  | val (v : Value) (rest : List Nat)
  | entries (acc : List (List Nat × Value)) (rest : List Nat)
  | elems (acc : List Value) (rest : List Nat)
  | fail (e : GGError)
  | panicked (msg : String)
  | noFuel

/-- The recursive value decoder.  Branch by branch this is the source's
`readHash` (request `.hash`), its entry loop (`.hashEntries`), `readValue`
(`.value`) and its Array element loop (`.arrayElems`); `orig` is the whole
deciphered block used for string resolution and `offsets` the decoded
Offset Table.  Note the source order in `readHash`: the `numEntries == 0`
check (returning the shared `errTooShort`) happens before
`make(HashEntries, 0, numEntries)`, which panics at runtime
(`makeslice: cap out of range`) when `numEntries` is negative; likewise
`make([]*Value, 0, numEntries)` in the Array case. -/
def decodeGo (orig : List Nat) (offsets : List Int) : Nat → DecReq → DecRes
  | 0, _ => .noFuel
  | fuel + 1, .hash cur =>
    match readByte cur with
    | none => .fail .tooShort
    | some (t, cur1) =>
      if t ≠ 2 then .fail .nonHash
      else
        match readInt cur1 with
        | none => .fail .tooShort
        | some (n, cur2) =>
          if n = 0 then .fail .tooShort
          else if n < 0 then .panicked "makeslice: cap out of range"
          else
            match decodeGo orig offsets fuel (.hashEntries n.toNat cur2 []) with
            | .entries acc cur3 =>
              match readByte cur3 with
              | none => .fail .tooShort
              | some (t2, cur4) =>
                if t2 ≠ 2 then .fail .unterminatedHash
                else .val (.hash (sortByKey acc)) cur4
            | .fail e => .fail e
            | .panicked m => .panicked m
            | _ => .noFuel
  | _ + 1, .hashEntries 0 cur acc => .entries acc cur
  | fuel + 1, .hashEntries (k + 1) cur acc =>
    match readInt cur with
    | none => .fail .tooShort
    | some (off, cur1) =>
      match readString offsets orig off with
      | .error e => .fail e
      | .ok key =>
        match decodeGo orig offsets fuel (.value cur1) with
        | .val v cur2 =>
          decodeGo orig offsets fuel (.hashEntries k cur2 (acc ++ [(key, v)]))
        | .fail e => .fail e
        | .panicked m => .panicked m
        | _ => .noFuel
  | fuel + 1, .value cur =>
    match cur with
    | [] => .fail .tooShort
    | t :: rest =>
      if t = 1 then .val .null rest
      else if t = 2 then decodeGo orig offsets fuel (.hash cur)
      else if t = 3 then
        match readInt rest with
        | none => .fail .tooShort
        | some (n, cur1) =>
          if n < 0 then .panicked "makeslice: cap out of range"
          else
            match decodeGo orig offsets fuel (.arrayElems n.toNat cur1 []) with
            | .elems elems cur2 =>
              match readByte cur2 with
              | none => .fail .tooShort
              | some (t2, cur3) =>
                if t2 ≠ 3 then .fail .unterminatedArray
                else .val (.arr elems) cur3
            | .fail e => .fail e
            | .panicked m => .panicked m
            | _ => .noFuel
      else if t = 4 then
        match readInt rest with
        | none => .fail .tooShort
        | some (ofs, cur1) =>
          match readString offsets orig ofs with
          | .error e => .fail e
          | .ok s => .val (.str s) cur1
      else if t = 5 ∨ t = 6 then
        match readInt rest with
        | none => .fail .tooShort
        | some (ofs, cur1) =>
          match readString offsets orig ofs with
          | .error e => .fail e
          | .ok num =>
            if t = 5 then
              match goParseInt64 num with
              | some n => .val (.integer n) cur1
              | none => .fail (.invalidInteger num)
            else
              match goParseFloat64 num with
              | some d => .val (.double d) cur1
              | none => .fail (.invalidDouble num)
      else .fail (.unsupportedValue t)
  | _ + 1, .arrayElems 0 cur acc => .elems acc cur
  | fuel + 1, .arrayElems (k + 1) cur acc =>
    match decodeGo orig offsets fuel (.value cur) with
    | .val v cur1 => decodeGo orig offsets fuel (.arrayElems k cur1 (acc ++ [v]))
    | .fail e => .fail e
    | .panicked m => .panicked m
    | _ => .noFuel

/-- `func (r *Reader) readHash(buf *[]byte, orig []byte)` (see `decodeGo`). -/
def readHash (fuel : Nat) (cur orig : List Nat) (offsets : List Int) : DecRes :=
  decodeGo orig offsets fuel (.hash cur)

/-- `func (r *Reader) readValue(buf *[]byte, orig []byte)` (see `decodeGo`). -/
def readValue (fuel : Nat) (cur orig : List Nat) (offsets : List Int) : DecRes :=
  decodeGo orig offsets fuel (.value cur)

/-! ## Helper lemmas about the cipher -/

theorem xor_left_comm (a b c : Nat) : a ^^^ (b ^^^ c) = b ^^^ (a ^^^ c) := by
  rw [← Nat.xor_assoc, Nat.xor_comm a b, Nat.xor_assoc]

theorem xor_cancel2 (a b c : Nat) : a ^^^ b ^^^ c ^^^ b ^^^ c = a := by
  calc a ^^^ b ^^^ c ^^^ b ^^^ c
      = a ^^^ (b ^^^ (c ^^^ (b ^^^ c))) := by
        rw [Nat.xor_assoc, Nat.xor_assoc, Nat.xor_assoc]
    _ = a ^^^ (b ^^^ (b ^^^ (c ^^^ c))) := by rw [xor_left_comm c b c]
    _ = a := by
        rw [← Nat.xor_assoc b b, Nat.xor_self, Nat.zero_xor, Nat.xor_self, Nat.xor_zero]

theorem getD_set_ne (l : List Nat) (i j a : Nat) (h : i ≠ j) :
    (l.set i a).getD j 0 = l.getD j 0 := by
  rw [List.getD_eq_getElem?_getD, List.getElem?_set_ne h, ← List.getD_eq_getElem?_getD]

theorem getD_set_self (l : List Nat) (i a : Nat) (h : i < l.length) :
    (l.set i a).getD i 0 = a := by
  rw [List.getD_eq_getElem?_getD, List.getElem?_set_self',
    List.getElem?_eq_getElem h]
  rfl

theorem set_self_getD (l : List Nat) (i : Nat) (h : i < l.length) :
    l.set i (l.getD i 0) = l := by
  apply List.ext_getElem?
  intro j
  by_cases hj : i = j
  · subst hj
    simp [List.getElem?_set_self', List.getElem?_eq_getElem h,
      List.getD_eq_getElem?_getD]
  · simp [List.getElem?_set_ne hj]

theorem chain_length (code : Nat) :
    ∀ (i prev : Nat) (l : List Nat), (chain code i prev l).length = l.length := by
  intro i prev l
  induction l generalizing i prev with
  | nil => rfl
  | cons v rest ih => simp [chain, ih]

theorem unchain_length (code : Nat) :
    ∀ (i prev : Nat) (l : List Nat), (unchain code i prev l).length = l.length := by
  intro i prev l
  induction l generalizing i prev with
  | nil => rfl
  | cons v rest ih => simp [unchain, ih]

theorem unchain_chain (code : Nat) :
    ∀ (i prev : Nat) (l : List Nat), unchain code i prev (chain code i prev l) = l := by
  intro i prev l
  induction l generalizing i prev with
  | nil => rfl
  | cons v rest ih =>
    simp only [chain, unchain, Nat.xor_cancel_right, List.cons.injEq]
    exact ⟨xor_cancel2 v _ _, ih (i + 1) _⟩

theorem chain_unchain (code : Nat) :
    ∀ (i prev : Nat) (l : List Nat), chain code i prev (unchain code i prev l) = l := by
  intro i prev l
  induction l generalizing i prev with
  | nil => rfl
  | cons o rest ih =>
    simp only [unchain, chain, List.cons.injEq]
    rw [xor_cancel2 (o ^^^ prev) _ _]
    exact ⟨Nat.xor_cancel_right .., ih (i + 1) (o ^^^ prev)⟩

/-- `flip2` with the reads pulled out of the writes: the write at `i` does
not affect the read at `i + 1`. -/
theorem flip2_eq (buf : List Nat) (i : Nat) :
    flip2 buf i = (buf.set i (buf.getD i 0 ^^^ 0x0d)).set (i + 1)
      (buf.getD (i + 1) 0 ^^^ 0x0d) := by
  have h : flip2 buf i = (buf.set i (buf.getD i 0 ^^^ 0x0d)).set (i + 1)
      ((buf.set i (buf.getD i 0 ^^^ 0x0d)).getD (i + 1) 0 ^^^ 0x0d) := rfl
  rw [h, getD_set_ne _ _ _ _ (by omega : i ≠ i + 1)]

theorem flip2_length (buf : List Nat) (i : Nat) : (flip2 buf i).length = buf.length := by
  rw [flip2_eq]; simp

theorem getElem?_flip2_ne (buf : List Nat) (i j : Nat) (h1 : j ≠ i) (h2 : j ≠ i + 1) :
    (flip2 buf i)[j]? = buf[j]? := by
  rw [flip2_eq, List.getElem?_set_ne (fun h => h2 h.symm),
    List.getElem?_set_ne (fun h => h1 h.symm)]

theorem flip2_set (buf : List Nat) (i j a : Nat) (h : j + 1 < i) :
    flip2 (buf.set j a) i = (flip2 buf i).set j a := by
  rw [flip2_eq, flip2_eq]
  rw [getD_set_ne _ _ _ _ (by omega : j ≠ i), getD_set_ne _ _ _ _ (by omega : j ≠ i + 1)]
  rw [List.set_comm _ _ _ (by omega : j ≠ i), List.set_comm _ _ _ (by omega : j ≠ i + 1)]

theorem flip2_flip2 (buf : List Nat) (i : Nat) (h : i + 1 < buf.length) :
    flip2 (flip2 buf i) i = buf := by
  rw [flip2_eq, flip2_eq]
  rw [getD_set_ne _ _ _ _ (by omega : i + 1 ≠ i),
    getD_set_self _ _ _ (by omega : i < buf.length)]
  rw [getD_set_self (buf.set i (buf.getD i 0 ^^^ 0x0d)) (i + 1) _
    (by rw [List.length_set]; omega)]
  rw [Nat.xor_cancel_right, Nat.xor_cancel_right]
  rw [List.set_comm _ _ _ (by omega : i + 1 ≠ i), List.set_set, List.set_set]
  rw [set_self_getD _ _ (by omega : i < buf.length)]
  exact set_self_getD _ _ (by omega : i + 1 < buf.length)

theorem pass2go_length :
    ∀ (fuel : Nat) (buf : List Nat) (i : Nat), (pass2go fuel buf i).length = buf.length := by
  intro fuel
  induction fuel with
  | zero => intro buf i; rfl
  | succ f ih =>
    intro buf i
    unfold pass2go
    by_cases h : i + 1 < buf.length
    · simp [h, ih, flip2_length]
    · simp [h]

theorem getElem?_pass2go_lt :
    ∀ (fuel : Nat) (buf : List Nat) (i j : Nat), j < i →
      (pass2go fuel buf i)[j]? = buf[j]? := by
  intro fuel
  induction fuel with
  | zero => intro buf i j _; rfl
  | succ f ih =>
    intro buf i j hj
    unfold pass2go
    by_cases h : i + 1 < buf.length
    · simp only [h, if_true]
      rw [ih (flip2 buf i) (i + 16) j (by omega)]
      exact getElem?_flip2_ne buf i j (by omega) (by omega)
    · simp [h]

theorem getD_pass2go_lt (fuel : Nat) (buf : List Nat) (i j : Nat) (h : j < i) :
    (pass2go fuel buf i).getD j 0 = buf.getD j 0 := by
  rw [List.getD_eq_getElem?_getD, getElem?_pass2go_lt fuel buf i j h,
    ← List.getD_eq_getElem?_getD]

theorem pass2go_set :
    ∀ (fuel : Nat) (buf : List Nat) (i j a : Nat), j + 1 < i →
      pass2go fuel (buf.set j a) i = (pass2go fuel buf i).set j a := by
  intro fuel
  induction fuel with
  | zero => intro buf i j a _; rfl
  | succ f ih =>
    intro buf i j a hj
    unfold pass2go
    simp only [List.length_set]
    by_cases h : i + 1 < buf.length
    · simp only [h, if_true]
      rw [flip2_set buf i j a hj, ih _ (i + 16) j a (by omega)]
    · simp [h]

theorem pass2go_succ (f : Nat) (buf : List Nat) (i : Nat) :
    pass2go (f + 1) buf i =
      if i + 1 < buf.length then pass2go f (flip2 buf i) (i + 16) else buf := rfl

theorem flip2_pass2go_comm (f : Nat) (b : List Nat) (i : Nat) :
    flip2 (pass2go f b (i + 16)) i = pass2go f (flip2 b i) (i + 16) := by
  rw [flip2_eq, flip2_eq]
  rw [getD_pass2go_lt f b (i + 16) i (by omega),
    getD_pass2go_lt f b (i + 16) (i + 1) (by omega)]
  rw [← pass2go_set f b (i + 16) i _ (by omega)]
  rw [← pass2go_set f (b.set i (b.getD i 0 ^^^ 0x0d)) (i + 16) (i + 1) _ (by omega)]

theorem pass2go_pass2go :
    ∀ (fuel : Nat) (buf : List Nat) (i : Nat), buf.length ≤ i + 1 + 16 * fuel →
      pass2go fuel (pass2go fuel buf i) i = buf := by
  intro fuel
  induction fuel with
  | zero => intro buf i _; rfl
  | succ f ih =>
    intro buf i hfuel
    by_cases h : i + 1 < buf.length
    · rw [pass2go_succ f buf i, if_pos h]
      have hlen : (pass2go f (flip2 buf i) (i + 16)).length = buf.length := by
        rw [pass2go_length, flip2_length]
      rw [pass2go_succ f (pass2go f (flip2 buf i) (i + 16)) i,
        if_pos (by rw [hlen]; exact h)]
      rw [flip2_pass2go_comm f (flip2 buf i) i, flip2_flip2 buf i h]
      exact ih buf (i + 16) (by omega)
    · rw [pass2go_succ f buf i, if_neg h, pass2go_succ f buf i, if_neg h]

theorem decodeXOR_eq (m : Nat) (buf : List Nat) :
    decodeXOR m buf =
      if m ≠ 0 then pass2go buf.length (chain (codeOf m) 0 (buf.length % 256) buf) 5
      else chain (codeOf m) 0 (buf.length % 256) buf := by
  have h : decodeXOR m buf =
      if m ≠ 0 then pass2go (chain (codeOf m) 0 (buf.length % 256) buf).length
        (chain (codeOf m) 0 (buf.length % 256) buf) 5
      else chain (codeOf m) 0 (buf.length % 256) buf := rfl
  rw [h, chain_length]

theorem encodeXOR_eq (m : Nat) (buf : List Nat) :
    encodeXOR m buf = unchain (codeOf m) 0 (buf.length % 256)
      (if m ≠ 0 then pass2go buf.length buf 5 else buf) := rfl

theorem decodeXOR_length (m : Nat) (buf : List Nat) :
    (decodeXOR m buf).length = buf.length := by
  rw [decodeXOR_eq]
  by_cases hm : m = 0
  · subst hm; simp [chain_length]
  · simp [hm, pass2go_length, chain_length]

theorem encodeXOR_length (m : Nat) (buf : List Nat) :
    (encodeXOR m buf).length = buf.length := by
  rw [encodeXOR_eq]
  by_cases hm : m = 0
  · subst hm; simp [unchain_length]
  · simp [hm, unchain_length, pass2go_length]

theorem decodeXOR_encodeXOR (m : Nat) (buf : List Nat) :
    decodeXOR m (encodeXOR m buf) = buf := by
  rw [encodeXOR_eq, decodeXOR_eq]
  have hlen : (unchain (codeOf m) 0 (buf.length % 256)
      (if m ≠ 0 then pass2go buf.length buf 5 else buf)).length = buf.length := by
    by_cases hm : m = 0
    · subst hm; simp [unchain_length]
    · simp [hm, unchain_length, pass2go_length]
  rw [hlen, chain_unchain]
  by_cases hm : m = 0
  · subst hm; simp
  · simp only [ne_eq, hm, not_false_eq_true, if_true, ite_true]
    exact pass2go_pass2go buf.length buf 5 (by omega)

theorem encodeXOR_decodeXOR (m : Nat) (buf : List Nat) :
    encodeXOR m (decodeXOR m buf) = buf := by
  rw [decodeXOR_eq, encodeXOR_eq]
  have hlen : (if m ≠ 0 then
        pass2go buf.length (chain (codeOf m) 0 (buf.length % 256) buf) 5
      else chain (codeOf m) 0 (buf.length % 256) buf).length = buf.length := by
    by_cases hm : m = 0
    · subst hm; simp [chain_length]
    · simp [hm, pass2go_length, chain_length]
  rw [hlen]
  by_cases hm : m = 0
  · subst hm
    simp only [ne_eq, not_true_eq_false, if_false, ite_false]
    exact unchain_chain _ 0 _ buf
  · simp only [ne_eq, hm, not_false_eq_true, if_true, ite_true]
    rw [pass2go_pass2go buf.length _ 5 (by rw [chain_length]; omega)]
    exact unchain_chain _ 0 _ buf

/-! ## Byte bounds -/

theorem getD_lt_256 (l : List Nat) (hl : ∀ b ∈ l, b < 256) (k : Nat) :
    l.getD k 0 < 256 := by
  by_cases hk : k < l.length
  · rw [List.getD_eq_getElem l 0 hk]
    exact hl _ (List.getElem_mem hk)
  · rw [List.getD_eq_default l 0 (by omega)]
    omega

theorem xor_lt_256 (a b : Nat) (ha : a < 256) (hb : b < 256) : a ^^^ b < 256 := by
  have h : (256 : Nat) = 2 ^ 8 := by norm_num
  rw [h] at ha hb ⊢
  exact Nat.xor_lt_two_pow ha hb

theorem magic_lt_256 (k : Nat) : magicBytes.getD k 0 < 256 := by
  apply getD_lt_256
  intro b hb
  fin_cases hb <;> norm_num

theorem chain_cons (code i prev v : Nat) (rest : List Nat) :
    chain code i prev (v :: rest) =
      ((v ^^^ magicBytes.getD (i &&& 0xf) 0 ^^^ (i * code % 256)) ^^^ prev) ::
        chain code (i + 1) (v ^^^ magicBytes.getD (i &&& 0xf) 0 ^^^ (i * code % 256))
          rest := rfl

theorem chain_bounds (code : Nat) :
    ∀ (i prev : Nat) (l : List Nat), (∀ b ∈ l, b < 256) → prev < 256 →
      ∀ b ∈ chain code i prev l, b < 256 := by
  intro i prev l
  induction l generalizing i prev with
  | nil => intro _ _ b hb; cases hb
  | cons v rest ih =>
    intro hl hprev b hb
    have hx : v ^^^ magicBytes.getD (i &&& 0xf) 0 ^^^ (i * code % 256) < 256 :=
      xor_lt_256 _ _ (xor_lt_256 _ _ (hl v (by simp)) (magic_lt_256 _))
        (Nat.mod_lt _ (by omega))
    rw [chain_cons, List.mem_cons] at hb
    rcases hb with rfl | hb
    · exact xor_lt_256 _ _ hx hprev
    · exact ih (i + 1) _ (fun b hb => hl b (by simp [hb])) hx b hb

theorem flip2_bounds (buf : List Nat) (i : Nat) (h : ∀ b ∈ buf, b < 256) :
    ∀ b ∈ flip2 buf i, b < 256 := by
  rw [flip2_eq]
  intro b hb
  rcases List.mem_or_eq_of_mem_set hb with hb1 | rfl
  · rcases List.mem_or_eq_of_mem_set hb1 with hb2 | rfl
    · exact h b hb2
    · exact xor_lt_256 _ _ (getD_lt_256 buf h i) (by norm_num)
  · exact xor_lt_256 _ _ (getD_lt_256 buf h (i + 1)) (by norm_num)

theorem pass2go_bounds :
    ∀ (fuel : Nat) (buf : List Nat) (i : Nat), (∀ b ∈ buf, b < 256) →
      ∀ b ∈ pass2go fuel buf i, b < 256 := by
  intro fuel
  induction fuel with
  | zero => intro buf i h; exact h
  | succ f ih =>
    intro buf i h
    rw [pass2go_succ]
    by_cases hc : i + 1 < buf.length
    · rw [if_pos hc]
      exact ih (flip2 buf i) (i + 16) (flip2_bounds buf i h)
    · rw [if_neg hc]
      exact h

theorem decodeXOR_bounds (m : Nat) (buf : List Nat) (h : ∀ b ∈ buf, b < 256) :
    ∀ b ∈ decodeXOR m buf, b < 256 := by
  rw [decodeXOR_eq]
  by_cases hm : m = 0
  · subst hm
    simp only [ne_eq, not_true_eq_false, if_false, ite_false]
    exact chain_bounds _ 0 _ buf h (Nat.mod_lt _ (by omega))
  · simp only [ne_eq, hm, not_false_eq_true, if_true, ite_true]
    exact pass2go_bounds _ _ 5 (chain_bounds _ 0 _ buf h (Nat.mod_lt _ (by omega)))

/-! ## Signature and probe lemmas -/

theorem xor_left_cancel (a b c : Nat) (h : a ^^^ b = a ^^^ c) : b = c := by
  have h2 := congrArg (fun x => a ^^^ x) h
  simpa [← Nat.xor_assoc, Nat.xor_self, Nat.zero_xor] using h2

/-- Methods 1 and 3 run the identical transform: both take the `code = 0x6d`
branch and both run the `0x0d` pass. -/
theorem decodeXOR_one_eq_three (buf : List Nat) : decodeXOR 1 buf = decodeXOR 3 buf := by
  rw [decodeXOR_eq, decodeXOR_eq]
  norm_num [codeOf]

/-- The `0x0d` pass starts at byte 5, so bytes 0–3 agree between methods 0
and 3 (same `code`), and the signature test cannot tell them apart. -/
theorem sig_decode_zero_eq_three (raw : List Nat) :
    signatureOK (decodeXOR 0 raw) = signatureOK (decodeXOR 3 raw) := by
  have h : ∀ j, j < 5 → (decodeXOR 3 raw).getD j 0 = (decodeXOR 0 raw).getD j 0 := by
    intro j hj
    rw [decodeXOR_eq, decodeXOR_eq]
    norm_num [codeOf]
    rw [getElem?_pass2go_lt _ _ 5 j hj]
  unfold signatureOK leUint32
  rw [h 0 (by omega), h 1 (by omega), h 2 (by omega), h 3 (by omega)]

theorem sig_byte1 (buf : List Nat) (hb : ∀ b ∈ buf, b < 256)
    (hs : signatureOK buf = true) : buf.getD 1 0 = 2 ∧ 3 < buf.length := by
  unfold signatureOK leUint32 at hs
  rw [beq_iff_eq] at hs
  simp only [Nat.zero_add] at hs
  have h0 := getD_lt_256 buf hb 0
  have h1 := getD_lt_256 buf hb 1
  have h2 := getD_lt_256 buf hb 2
  have h3 := getD_lt_256 buf hb 3
  by_cases hlen : 3 < buf.length
  · exact ⟨by omega, hlen⟩
  · exfalso
    rw [List.getD_eq_default buf 0 (by omega : buf.length ≤ 3)] at hs
    omega

theorem getD1_decode (m : Nat) (hm : m ≠ 0) (r0 r1 : Nat) (rest : List Nat) :
    (decodeXOR m (r0 :: r1 :: rest)).getD 1 0 =
      (r1 ^^^ magicBytes.getD 1 0 ^^^ codeOf m % 256) ^^^
        (r0 ^^^ magicBytes.getD 0 0) := by
  rw [decodeXOR_eq]
  simp only [hm, if_true, ite_true, ne_eq, not_false_eq_true]
  rw [getD_pass2go_lt _ _ 5 1 (by omega)]
  show (chain (codeOf m) 0 ((r0 :: r1 :: rest).length % 256) (r0 :: r1 :: rest)).getD 1 0 = _
  simp [chain, Nat.one_mul]

/-- Methods 2 and 3 can never both produce the signature: the deciphered
bytes at index 1 always differ by `0xad ^^^ 0x6d = 0xc0`. -/
theorem sig23_conflict (raw : List Nat) (hb : ∀ b ∈ raw, b < 256)
    (h2 : signatureOK (decodeXOR 2 raw) = true) :
    signatureOK (decodeXOR 3 raw) = false := by
  by_contra h3
  rw [Bool.not_eq_false] at h3
  have hb2 := decodeXOR_bounds 2 raw hb
  have hb3 := decodeXOR_bounds 3 raw hb
  obtain ⟨hbyte2, hlen2⟩ := sig_byte1 _ hb2 h2
  obtain ⟨hbyte3, _⟩ := sig_byte1 _ hb3 h3
  rw [decodeXOR_length] at hlen2
  rcases raw with _ | ⟨r0, _ | ⟨r1, rest⟩⟩
  · simp at hlen2
  · simp at hlen2
  · rw [getD1_decode 2 (by norm_num) r0 r1 rest] at hbyte2
    rw [getD1_decode 3 (by norm_num) r0 r1 rest] at hbyte3
    have hXY : r1 ^^^ magicBytes.getD 1 0 ^^^ codeOf 2 % 256 =
        r1 ^^^ magicBytes.getD 1 0 ^^^ codeOf 3 % 256 := by
      have h := hbyte2.trans hbyte3.symm
      have h4 := congrArg (fun x => x ^^^ (r0 ^^^ magicBytes.getD 0 0)) h
      simpa [Nat.xor_cancel_right] using h4
    have := xor_left_cancel _ _ _ hXY
    norm_num [codeOf] at this

theorem probe_eq_three (raw : List Nat) (h3 : signatureOK (decodeXOR 3 raw) = true) :
    probeMethod raw = some 3 := by
  unfold probeMethod
  rw [List.find?_cons_of_pos _ (by simpa using h3)]

theorem probe_eq_two (raw : List Nat) (hb : ∀ b ∈ raw, b < 256)
    (h2 : signatureOK (decodeXOR 2 raw) = true) : probeMethod raw = some 2 := by
  have h3 := sig23_conflict raw hb h2
  unfold probeMethod
  rw [List.find?_cons_of_neg _ (by simp [h3]), List.find?_cons_of_pos _ (by simpa using h2)]

theorem probe_some_sig (raw : List Nat) (m : Nat) (h : probeMethod raw = some m) :
    signatureOK (decodeXOR m raw) = true := by
  have := List.find?_some h
  simpa using this

theorem probe_ne_one (raw : List Nat) : probeMethod raw ≠ some 1 := by
  intro h1
  have hs := probe_some_sig raw 1 h1
  have h3 : signatureOK (decodeXOR 3 raw) = true := by
    rw [← decodeXOR_one_eq_three]; exact hs
  rw [probe_eq_three raw h3] at h1
  simp at h1

theorem probe_none (raw : List Nat)
    (hall : ∀ m, m < 4 → signatureOK (decodeXOR m raw) = false) :
    probeMethod raw = none := by
  unfold probeMethod
  rw [List.find?_cons_of_neg _ (by simp [hall 3 (by omega)]),
    List.find?_cons_of_neg _ (by simp [hall 2 (by omega)]),
    List.find?_cons_of_neg _ (by simp [hall 1 (by omega)]),
    List.find?_cons_of_neg _ (by simp [hall 0 (by omega)]),
    List.find?_nil]

/-! ## Offset-table loop lemmas -/

theorem offLoop_succ (f : Nat) (buf : List Nat) (pos : Nat) :
    offLoop (f + 1) buf pos =
      if pos + 4 < buf.length then
        if leUint32 buf pos = 0xffffffff then []
        else toInt32 (leUint32 buf pos) :: offLoop f buf (pos + 4)
      else [] := rfl

theorem amendOffLoop_succ (f : Nat) (buf : List Nat) (pos : Nat) :
    amendOffLoop (f + 1) buf pos =
      if 5 ≤ buf.length - pos then
        if leUint32 buf pos = 0xffffffff then []
        else toInt32 (leUint32 buf pos) :: amendOffLoop f buf (pos + 4)
      else [] := rfl

theorem offLoop_eq_amend :
    ∀ (fuel : Nat) (buf : List Nat) (pos : Nat),
      offLoop fuel buf pos = amendOffLoop fuel buf pos := by
  intro fuel
  induction fuel with
  | zero => intro buf pos; rfl
  | succ f ih =>
    intro buf pos
    rw [offLoop_succ, amendOffLoop_succ]
    by_cases h : pos + 4 < buf.length
    · rw [if_pos h, if_pos (show 5 ≤ buf.length - pos by omega)]
      by_cases hs : leUint32 buf pos = 0xffffffff
      · simp [hs]
      · simp [hs, ih]
    · rw [if_neg h, if_neg (show ¬ 5 ≤ buf.length - pos by omega)]

theorem toInt32_eq_neg_one (u : Nat) (h : toInt32 u = -1) : u = 0xffffffff := by
  unfold toInt32 at h
  by_cases hc : u < 2147483648
  · rw [if_pos hc] at h; omega
  · rw [if_neg hc] at h; omega

theorem sentinel_not_mem_offLoop :
    ∀ (fuel : Nat) (buf : List Nat) (pos : Nat), (-1 : Int) ∉ offLoop fuel buf pos := by
  intro fuel
  induction fuel with
  | zero => intro buf pos h; cases h
  | succ f ih =>
    intro buf pos h
    rw [offLoop_succ] at h
    by_cases hc : pos + 4 < buf.length
    · rw [if_pos hc] at h
      by_cases hs : leUint32 buf pos = 0xffffffff
      · rw [if_pos hs] at h; cases h
      · rw [if_neg hs] at h
        rw [List.mem_cons] at h
        rcases h with h | h
        · exact hs (toInt32_eq_neg_one _ h.symm)
        · exact ih buf (pos + 4) h
    · rw [if_neg hc] at h; cases h

/-! ## String and lookup lemmas -/

theorem takeUntilZero_eq_takeWhile :
    ∀ l : List Nat, takeUntilZero l = l.takeWhile (fun b => b != 0) := by
  intro l
  induction l with
  | nil => rfl
  | cons b rest ih =>
    unfold takeUntilZero
    by_cases hb : b = 0
    · subst hb; simp [List.takeWhile_cons]
    · simp [hb, List.takeWhile_cons, ih]

theorem find_some_sound (entries : List (List Nat × Value)) (name : List Nat) (v : Value)
    (h : find (.hash entries) name = some v) :
    ∃ i, i < entries.length ∧ name = lowerBytes (entries.getD i ([], .null)).1 ∧
      v = (entries.getD i ([], .null)).2 := by
  have hdef : find (.hash entries) name =
      if sortSearch entries.length
          (fun i => ! bytesLt (entries.getD i ([], .null)).1 name) < entries.length then
        if name = lowerBytes ((entries.getD (sortSearch entries.length
            (fun i => ! bytesLt (entries.getD i ([], .null)).1 name)) ([], .null)).1) then
          some (entries.getD (sortSearch entries.length
            (fun i => ! bytesLt (entries.getD i ([], .null)).1 name)) ([], .null)).2
        else none
      else none := rfl
  rw [hdef] at h
  by_cases h1 : sortSearch entries.length
      (fun i => ! bytesLt (entries.getD i ([], .null)).1 name) < entries.length
  · rw [if_pos h1] at h
    by_cases h2 : name = lowerBytes (entries.getD (sortSearch entries.length
        (fun i => ! bytesLt (entries.getD i ([], .null)).1 name)) ([], .null)).1
    · rw [if_pos h2] at h
      exact ⟨_, h1, h2, (Option.some.inj h).symm⟩
    · rw [if_neg h2] at h
      cases h
  · rw [if_neg h1] at h
    cases h

theorem readOffsets_eq (buf : List Nat) :
    readOffsets buf =
      if buf.length < 12 then .error .tooShort
      else if leUint32 buf 8 < 12 ∨ buf.length - 4 ≤ leUint32 buf 8 then
        .error .ploOutOfRange
      else if buf.getD (leUint32 buf 8) 0 ≠ 7 then .error .markerNotFound
      else .ok (offLoop buf.length buf (leUint32 buf 8 + 1)) := rfl

theorem amendReadOffsets_eq (buf : List Nat) :
    amendReadOffsets buf =
      if buf.length < 12 then .error .tooShort
      else if leUint32 buf 8 < 12 ∨ buf.length - 4 ≤ leUint32 buf 8 then
        .error .ploOutOfRange
      else if buf.getD (leUint32 buf 8) 0 ≠ 7 then .error .markerNotFound
      else .ok (amendOffLoop buf.length buf (leUint32 buf 8 + 1)) := rfl

theorem readString_eq (offsets : List Int) (buf : List Nat) (offset : Int) :
    readString offsets buf offset =
      if offset < 0 ∨ (offsets.length : Int) ≤ offset then
        .error (.invalidOffsetIndex offset)
      else if offsets.getD offset.toNat 0 < 0 ∨
          (buf.length : Int) ≤ offsets.getD offset.toNat 0 then
        .error (.invalidOffset (offsets.getD offset.toNat 0))
      else .ok (takeUntilZero (buf.drop (offsets.getD offset.toNat 0).toNat)) := rfl

end GGPack

section SanityChecks
open GGPack

example : decodeXOR 0 [0, 0] = [0x4d, 0xf2] := by decide
example : decodeXOR 0 (decodeXOR 0 [0, 0]) = [0, 0x4d] := by decide
example : decodeXOR 0 [0x4a, 0xba, 0x7e, 0xeb] = [1, 2, 3, 4] := by decide
example : probeMethod [0x4a, 0xba, 0x7e, 0xeb] = some 3 := by decide
example : decodeXOR 0 (encodeXOR 0 [1, 2, 3, 4, 5, 6, 7]) = [1, 2, 3, 4, 5, 6, 7] := by
  decide
example : decodeXOR 3 (encodeXOR 3 [1, 2, 3, 4, 5, 6, 7]) = [1, 2, 3, 4, 5, 6, 7] := by
  decide

-- C5 scratch: block of length 17 with a table entry in the final 4 bytes.
example :
    readOffsets [0, 0, 0, 0, 0, 0, 0, 0, 12, 0, 0, 0, 7, 1, 0, 0, 0] =
      .ok [] := rfl
example :
    claimReadOffsets [0, 0, 0, 0, 0, 0, 0, 0, 12, 0, 0, 0, 7, 1, 0, 0, 0] =
      .ok [1] := rfl
example : readString [0] [5, 0] 0 = .ok [5] := rfl
example : readString [3] [5, 0, 7, 8, 9] 0 = .ok [8, 9] := rfl
example : readString [] [5, 0] 0 = .error (.invalidOffsetIndex 0) := rfl
example : readString [-1] [5, 0] 0 = .error (.invalidOffset (-1)) := rfl

-- C6 scratch: zero entry count gives the shared too-short error.
example : readHash 5 [2, 0, 0, 0, 0] [] [] = .fail .tooShort := rfl
-- C4 scratch: negative count panics at make.
example : readHash 5 [2, 0xff, 0xff, 0xff, 0xff] [] [] =
    .panicked "makeslice: cap out of range" := rfl
example : readValue 5 [3, 0xff, 0xff, 0xff, 0xff] [] [] =
    .panicked "makeslice: cap out of range" := rfl
-- C7 scratch: count 1 with no entry bytes → too-short, not unterminated.
example : readHash 5 [2, 1, 0, 0, 0] [] [] = .fail .tooShort := rfl
-- C7 scratch: good single entry, bad terminator.
example : readHash 5 [2, 1, 0, 0, 0, 0, 0, 0, 0, 1, 9] [0] [0] =
    .fail .unterminatedHash := rfl
example : readHash 5 [2, 1, 0, 0, 0, 0, 0, 0, 0, 1, 2] [0] [0] =
    .val (.hash [([], .null)]) [] := rfl
example : readValue 5 [3, 0, 0, 0, 0, 9] [] [] = .fail .unterminatedArray := rfl
example : readValue 5 [3, 0, 0, 0, 0, 3] [] [] = .val (.arr []) [] := rfl
-- C9 scratch: integer "-17", double "3.5", bad text "abc".
example : goParseInt64 [0x2d, 0x31, 0x37] = some (-17) := rfl
example : goParseFloat64 [0x33, 0x2e, 0x35] = some (.finite (7 / 2)) := by
  simp [goParseFloat64, parseDec, splitDigits, isDigit, decVal, digitsVal,
    lowerBytes, lowerByte, maxFloat64]
  norm_num
example : goParseInt64 [0x61, 0x62, 0x63] = none := rfl
example : goParseFloat64 [0x61, 0x62, 0x63] = none := rfl
example : readValue 5 [5, 0, 0, 0, 0] [0x2d, 0x31, 0x37] [0] =
    .val (.integer (-17)) [] := rfl
-- C3 scratch: Find with stored key 'a'.
example : find (.hash [([0x61], .integer 42)]) [0x61] = some (.integer 42) := rfl
example : find (.hash [([0x61], .integer 42)]) [0x41] = none := rfl

end SanityChecks

namespace GGPack

/-! ## Claim theorems -/

/-- C1 counterexample: applying `DecodeXOR` twice with method 0 to the
two-byte zero buffer does not restore it, so the Cipher Engine is not an
involution. -/
theorem c1_counterexample : decodeXOR 0 (decodeXOR 0 [0, 0]) ≠ [0, 0] := by decide

/-- C1 (amended): the Cipher Engine is invertible — an explicit inverse
transform `encodeXOR` satisfies both `decode ∘ encode = id` and
`encode ∘ decode = id` for every method parameter and every buffer — but it
is not its own inverse (see the counterexample). -/
theorem c1_amended :
    ∀ (m : Nat) (buf : List Nat),
      decodeXOR m (encodeXOR m buf) = buf ∧ encodeXOR m (decodeXOR m buf) = buf :=
  fun m buf => ⟨decodeXOR_encodeXOR m buf, encodeXOR_decodeXOR m buf⟩

/-- C4: a Hash or Array whose 32-bit little-endian count field is negative
as a signed 32-bit integer does not produce an error result — the source
passes the negative count to `make`, which panics at runtime with
`makeslice: cap out of range`.  Evaluated at count `0xffffffff = -1`. -/
theorem c4_bug :
    ∀ (fuel : Nat) (orig : List Nat) (offsets : List Int),
      readHash (fuel + 1) [2, 0xff, 0xff, 0xff, 0xff] orig offsets =
        .panicked "makeslice: cap out of range" ∧
      readValue (fuel + 1) [3, 0xff, 0xff, 0xff, 0xff] orig offsets =
        .panicked "makeslice: cap out of range" :=
  fun _ _ _ => ⟨rfl, rfl⟩

/-- C5 counterexample: on a 17-byte block whose offset table consists of a
single entry occupying the final four bytes, `readOffsets` returns no
entries, while the Offset Table Reader as the claim words it (stop only
when fewer than 4 bytes remain) would return that entry. -/
theorem c5_counterexample :
    readOffsets [0, 0, 0, 0, 0, 0, 0, 0, 12, 0, 0, 0, 7, 1, 0, 0, 0] = .ok [] ∧
    claimReadOffsets [0, 0, 0, 0, 0, 0, 0, 0, 12, 0, 0, 0, 7, 1, 0, 0, 0] =
      .ok [1] :=
  ⟨rfl, rfl⟩

/-- C5 (amended): the Offset Table Reader reads consecutive 32-bit
little-endian entries from `table_pos + 1` advancing 4 bytes at a time,
stopping without inclusion at the `0xFFFFFFFF` sentinel, and otherwise
stopping as soon as four or fewer bytes remain (the final four bytes of a
block are never read as an entry); the sentinel (`-1` as `int32`) never
appears among the returned offsets. -/
theorem c5_amended :
    (∀ buf : List Nat, readOffsets buf = amendReadOffsets buf) ∧
    ∀ (buf : List Nat) (l : List Int), readOffsets buf = .ok l → (-1 : Int) ∉ l := by
  constructor
  · intro buf
    rw [readOffsets_eq, amendReadOffsets_eq, offLoop_eq_amend]
  · intro buf l h
    rw [readOffsets_eq] at h
    by_cases h1 : buf.length < 12
    · rw [if_pos h1] at h; exact Except.noConfusion h
    · rw [if_neg h1] at h
      by_cases h2 : leUint32 buf 8 < 12 ∨ buf.length - 4 ≤ leUint32 buf 8
      · rw [if_pos h2] at h; exact Except.noConfusion h
      · rw [if_neg h2] at h
        by_cases h3 : buf.getD (leUint32 buf 8) 0 ≠ 7
        · rw [if_pos h3] at h; exact Except.noConfusion h
        · rw [if_neg h3] at h
          rw [(Except.ok.inj h).symm]
          exact sentinel_not_mem_offLoop _ _ _

/-- C5 witness: the sentinel-exclusion part of the amended claim evaluated
on a 21-byte block whose table holds one entry followed by the sentinel. -/
theorem c5_witness : (-1 : Int) ∉ ([1] : List Int) :=
  c5_amended.2 [0, 0, 0, 0, 0, 0, 0, 0, 12, 0, 0, 0, 7, 1, 0, 0, 0,
    0xff, 0xff, 0xff, 0xff] [1] rfl

/-- C6 counterexample: a Hash with entry count 0 fails with the shared
buffer-too-short error (`errTooShort`) — exactly the same error value a
genuinely truncated buffer produces — not with a distinct `EmptyHash`
error kind. -/
theorem c6_counterexample :
    readHash 5 [2, 0, 0, 0, 0] [] [] = .fail .tooShort ∧
    readHash 5 [2] [] [] = .fail .tooShort :=
  ⟨rfl, rfl⟩

/-- C6 (amended): decoding a Hash whose 32-bit little-endian entry count is
0 fails and returns no value, but the error raised is the shared
buffer-too-short error (`errTooShort`), not a structural error kind
distinct from it. -/
theorem c6_amended :
    ∀ (fuel : Nat) (orig : List Nat) (offsets : List Int),
      readHash (fuel + 1) [2, 0, 0, 0, 0] orig offsets = .fail .tooShort :=
  fun _ _ _ => rfl

/-- C7 counterexample: a Hash declaring one entry but containing none fails
with the buffer-too-short error, not with `UnterminatedHash` as the claim
states. -/
theorem c7_counterexample :
    readHash 5 [2, 1, 0, 0, 0] [] [] = .fail .tooShort ∧
    readHash 5 [2, 1, 0, 0, 0] [] [] ≠ .fail .unterminatedHash := by
  refine ⟨rfl, ?_⟩
  intro h
  have h3 : DecRes.fail .tooShort = DecRes.fail .unterminatedHash := h
  injection h3 with h4
  exact GGError.noConfusion h4

/-- C7 (amended): a Hash whose terminator byte after the declared entries is
not tag 2 fails with `UnterminatedHash` (shown for a one-entry hash with an
arbitrary non-2 terminator byte), and an Array whose terminating tag byte is
not 3 fails with `UnterminatedArray` (shown for an empty array with an
arbitrary non-3 terminator byte); but a Hash followed by fewer than the
declared number of entries fails with the buffer-too-short error instead of
`UnterminatedHash`.  In every case decoding returns no value. -/
theorem c7_amended :
    (∀ (fuel t : Nat), t ≠ 2 →
      readHash (fuel + 4) [2, 1, 0, 0, 0, 0, 0, 0, 0, 1, t] [0] [0] =
        .fail .unterminatedHash) ∧
    (∀ (fuel t : Nat), t ≠ 3 →
      readValue (fuel + 2) [3, 0, 0, 0, 0, t] [] [] = .fail .unterminatedArray) ∧
    ∀ fuel : Nat, readHash (fuel + 2) [2, 1, 0, 0, 0] [] [] = .fail .tooShort := by
  refine ⟨?_, ?_, fun _ => rfl⟩
  · intro fuel t ht
    have h : readHash (fuel + 4) [2, 1, 0, 0, 0, 0, 0, 0, 0, 1, t] [0] [0] =
        if t ≠ 2 then .fail .unterminatedHash
        else .val (.hash (sortByKey [([], .null)])) [] := rfl
    rw [h, if_pos ht]
  · intro fuel t ht
    have h : readValue (fuel + 2) [3, 0, 0, 0, 0, t] [] [] =
        if t ≠ 3 then .fail .unterminatedArray else .val (.arr []) [] := rfl
    rw [h, if_pos ht]

/-- C7 witness: the amended claim evaluated at terminator byte 9. -/
theorem c7_witness :
    readHash 5 [2, 1, 0, 0, 0, 0, 0, 0, 0, 1, 9] [0] [0] = .fail .unterminatedHash :=
  c7_amended.1 1 9 (by decide)

/-- C10: methods 1 and 3 define extensionally equal cipher transforms (both
use multiplier `0x6d` and both apply the secondary `0x0d` pass), and as a
consequence the descending-order prober can never answer method 1. -/
theorem c10_spec :
    (∀ buf : List Nat, decodeXOR 1 buf = decodeXOR 3 buf) ∧
    ∀ raw : List Nat, probeMethod raw ≠ some 1 :=
  ⟨decodeXOR_one_eq_three, probe_ne_one⟩

/-- C10 witness: the prober does not answer method 1 on a block carrying the
signature under methods 0, 1 and 3. -/
theorem c10_witness : probeMethod [0x4a, 0xba, 0x7e, 0xeb] ≠ some 1 :=
  c10_spec.2 [0x4a, 0xba, 0x7e, 0xeb]

end GGPack

namespace GGPack

/-- C2 counterexample: a four-byte block that deciphers to the signature
under method 0 (so a container obfuscated with method parameter 0) is
answered with method 3 by the prober, not with method 0. -/
theorem c2_counterexample :
    signatureOK (decodeXOR 0 [0x4a, 0xba, 0x7e, 0xeb]) = true ∧
    probeMethod [0x4a, 0xba, 0x7e, 0xeb] = some 3 := by decide

/-- C2 (amended): the prober tries methods 3, 2, 1, 0 in that order and
selects the first whose deciphered first four bytes equal the little-endian
signature `0x04030201`.  Methods 3 and 1 run identical transforms and the
secondary pass never touches bytes 0–3, so a block obfuscated with method
3, 1 or 0 is always answered with 3; a block obfuscated with method 2 is
answered with exactly 2 (methods 2 and 3 can never both match); and if no
method produces the signature, `ReadPack` fails with the
`unsupported package version` error. -/
theorem c2_amended (raw : List Nat) (hb : ∀ b ∈ raw, b < 256) :
    (signatureOK (decodeXOR 3 raw) = true → probeMethod raw = some 3) ∧
    (signatureOK (decodeXOR 2 raw) = true → probeMethod raw = some 2) ∧
    (signatureOK (decodeXOR 1 raw) = true → probeMethod raw = some 3) ∧
    (signatureOK (decodeXOR 0 raw) = true → probeMethod raw = some 3) ∧
    (4 ≤ raw.length → (∀ m, m < 4 → signatureOK (decodeXOR m raw) = false) →
      probeResult raw = .error .unsupportedVersion) := by
  refine ⟨probe_eq_three raw, probe_eq_two raw hb, ?_, ?_, ?_⟩
  · intro h1
    exact probe_eq_three raw (by rw [← decodeXOR_one_eq_three]; exact h1)
  · intro h0
    exact probe_eq_three raw (by rw [← sig_decode_zero_eq_three]; exact h0)
  · intro hlen hall
    unfold probeResult
    rw [if_neg (by omega), probe_none raw hall]

/-- C2 witness: a block obfuscated with method 2 is answered with exactly
method 2. -/
theorem c2_witness : probeMethod [0x4a, 0x7a, 0xfe, 0xab] = some 2 :=
  (c2_amended [0x4a, 0x7a, 0xfe, 0xab] (by decide)).2.1 (by decide)

/-- C3 counterexample: on a decoded hash holding the single key `"a"`,
`Find("a")` returns the entry's value but `Find("A")` returns the
not-found indicator, because the search key is never lower-cased. -/
theorem c3_counterexample :
    find (.hash [([0x61], .integer 42)]) [0x61] = some (.integer 42) ∧
    find (.hash [([0x61], .integer 42)]) [0x41] = none :=
  ⟨rfl, rfl⟩

/-- C3 (amended): `Find` lower-cases only the stored key, and only in its
final equality check — the binary search itself compares the raw keys
case-sensitively and the search key is never lower-cased.  Hence on a hash
with the (lower-case) key `"a"`, `Find("a")` succeeds and `Find("A")`
returns the not-found indicator; and in general `Find` returns a value only
when the supplied search key is exactly the lower-cased form of the stored
key found at the binary-search position. -/
theorem c3_amended :
    (∀ v : Value, find (.hash [([0x61], v)]) [0x61] = some v ∧
      find (.hash [([0x61], v)]) [0x41] = none) ∧
    ∀ (entries : List (List Nat × Value)) (name : List Nat) (v : Value),
      find (.hash entries) name = some v →
      ∃ i, i < entries.length ∧ name = lowerBytes (entries.getD i ([], .null)).1 ∧
        v = (entries.getD i ([], .null)).2 := by
  constructor
  · intro v
    exact ⟨by with_unfolding_all rfl, by with_unfolding_all rfl⟩
  · exact find_some_sound

/-- C3 witness: the soundness part of the amended claim evaluated on the
one-entry hash with key `"a"` and value Integer 42. -/
theorem c3_witness :
    ∃ i, i < ([([0x61], Value.integer 42)] : List (List Nat × Value)).length ∧
      [0x61] = lowerBytes ((([([0x61], Value.integer 42)] :
        List (List Nat × Value)).getD i ([], .null)).1) ∧
      Value.integer 42 = (([([0x61], Value.integer 42)] :
        List (List Nat × Value)).getD i ([], .null)).2 :=
  c3_amended.2 [([0x61], .integer 42)] [0x61] (.integer 42) rfl

/-- C8: string resolution fails with `InvalidStringIndex` exactly when the
table index is negative or at least the table length; otherwise it fails
with `InvalidStringOffset` exactly when the stored offset is negative or at
least the block length; otherwise it returns exactly the block bytes from
the offset up to but excluding the first zero byte (all bytes to the end
when there is none). -/
theorem c8_spec (offsets : List Int) (buf : List Nat) (idx : Int) :
    (readString offsets buf idx = .error (.invalidOffsetIndex idx) ↔
      idx < 0 ∨ (offsets.length : Int) ≤ idx) ∧
    (¬(idx < 0 ∨ (offsets.length : Int) ≤ idx) →
      (readString offsets buf idx =
          .error (.invalidOffset (offsets.getD idx.toNat 0)) ↔
        offsets.getD idx.toNat 0 < 0 ∨
          (buf.length : Int) ≤ offsets.getD idx.toNat 0)) ∧
    (¬(idx < 0 ∨ (offsets.length : Int) ≤ idx) →
      ¬(offsets.getD idx.toNat 0 < 0 ∨
          (buf.length : Int) ≤ offsets.getD idx.toNat 0) →
      readString offsets buf idx =
        .ok ((buf.drop (offsets.getD idx.toNat 0).toNat).takeWhile
          (fun b => b != 0))) := by
  refine ⟨⟨?_, ?_⟩, ?_, ?_⟩
  · intro h
    by_contra hc
    rw [readString_eq, if_neg hc] at h
    by_cases h2 : offsets.getD idx.toNat 0 < 0 ∨
        (buf.length : Int) ≤ offsets.getD idx.toNat 0
    · rw [if_pos h2] at h
      simp at h
    · rw [if_neg h2] at h
      simp at h
  · intro h
    rw [readString_eq, if_pos h]
  · intro h1
    constructor
    · intro h
      by_contra hc
      rw [readString_eq, if_neg h1, if_neg hc] at h
      simp at h
    · intro h
      rw [readString_eq, if_neg h1, if_pos h]
  · intro h1 h2
    rw [readString_eq, if_neg h1, if_neg h2, takeUntilZero_eq_takeWhile]

/-- C8 witness: the success case evaluated at table `[3]`, block
`[5, 0, 7, 8, 9]`, index 0: the returned text is the bytes from offset 3 to
the end (no zero byte follows). -/
theorem c8_witness : readString [3] [5, 0, 7, 8, 9] 0 = .ok [8, 9] :=
  ((c8_spec [3] [5, 0, 7, 8, 9] 0).2.2 (by decide) (by decide)).trans rfl

end GGPack

namespace GGPack

theorem readInt_cons4 (b0 b1 b2 b3 : Nat) (rest : List Nat) :
    readInt (b0 :: b1 :: b2 :: b3 :: rest) =
      some (toInt32 (b0 + 256 * b1 + 65536 * b2 + 16777216 * b3), rest) := by
  unfold readInt
  rw [if_neg (show ¬((b0 :: b1 :: b2 :: b3 :: rest).length < 4) by
    simp only [List.length_cons]; omega)]
  rfl

theorem readValue_int_step (fuel : Nat) (orig : List Nat) (offsets : List Int)
    (b0 b1 b2 b3 : Nat) (rest : List Nat) :
    readValue (fuel + 1) (5 :: b0 :: b1 :: b2 :: b3 :: rest) orig offsets =
      match readString offsets orig
          (toInt32 (b0 + 256 * b1 + 65536 * b2 + 16777216 * b3)) with
      | .error e => .fail e
      | .ok num =>
        match goParseInt64 num with
        | some n => .val (.integer n) rest
        | none => .fail (.invalidInteger num) := by
  have h : readValue (fuel + 1) (5 :: b0 :: b1 :: b2 :: b3 :: rest) orig offsets =
      match readInt (b0 :: b1 :: b2 :: b3 :: rest) with
      | none => .fail .tooShort
      | some (ofs, cur1) =>
        match readString offsets orig ofs with
        | .error e => .fail e
        | .ok num =>
          match goParseInt64 num with
          | some n => .val (.integer n) cur1
          | none => .fail (.invalidInteger num) := rfl
  rw [h, readInt_cons4]

theorem readValue_dbl_step (fuel : Nat) (orig : List Nat) (offsets : List Int)
    (b0 b1 b2 b3 : Nat) (rest : List Nat) :
    readValue (fuel + 1) (6 :: b0 :: b1 :: b2 :: b3 :: rest) orig offsets =
      match readString offsets orig
          (toInt32 (b0 + 256 * b1 + 65536 * b2 + 16777216 * b3)) with
      | .error e => .fail e
      | .ok num =>
        match goParseFloat64 num with
        | some d => .val (.double d) rest
        | none => .fail (.invalidDouble num) := by
  have h : readValue (fuel + 1) (6 :: b0 :: b1 :: b2 :: b3 :: rest) orig offsets =
      match readInt (b0 :: b1 :: b2 :: b3 :: rest) with
      | none => .fail .tooShort
      | some (ofs, cur1) =>
        match readString offsets orig ofs with
        | .error e => .fail e
        | .ok num =>
          match goParseFloat64 num with
          | some d => .val (.double d) cur1
          | none => .fail (.invalidDouble num) := rfl
  rw [h, readInt_cons4]

/-- C9: an Integer-tagged entry whose resolved text parses as a base-10
signed 64-bit integer decodes to that integer; a Double-tagged entry whose
resolved text parses as a finite decimal float literal decodes to that
value; and for either tag a resolved text that does not parse fails with
the numeric-parse error carrying the offending text
(`invalid integer: %s` / `invalid double: %s`). -/
theorem c9_spec :
    (∀ (fuel : Nat) (orig : List Nat) (offsets : List Int) (b0 b1 b2 b3 : Nat)
        (rest s : List Nat) (n : Int),
      readString offsets orig
          (toInt32 (b0 + 256 * b1 + 65536 * b2 + 16777216 * b3)) = .ok s →
      goParseInt64 s = some n →
      readValue (fuel + 1) (5 :: b0 :: b1 :: b2 :: b3 :: rest) orig offsets =
        .val (.integer n) rest) ∧
    (∀ (fuel : Nat) (orig : List Nat) (offsets : List Int) (b0 b1 b2 b3 : Nat)
        (rest s : List Nat) (d : GoFloat),
      readString offsets orig
          (toInt32 (b0 + 256 * b1 + 65536 * b2 + 16777216 * b3)) = .ok s →
      goParseFloat64 s = some d →
      readValue (fuel + 1) (6 :: b0 :: b1 :: b2 :: b3 :: rest) orig offsets =
        .val (.double d) rest) ∧
    (∀ (fuel : Nat) (orig : List Nat) (offsets : List Int) (b0 b1 b2 b3 : Nat)
        (rest s : List Nat),
      readString offsets orig
          (toInt32 (b0 + 256 * b1 + 65536 * b2 + 16777216 * b3)) = .ok s →
      goParseInt64 s = none →
      readValue (fuel + 1) (5 :: b0 :: b1 :: b2 :: b3 :: rest) orig offsets =
        .fail (.invalidInteger s)) ∧
    ∀ (fuel : Nat) (orig : List Nat) (offsets : List Int) (b0 b1 b2 b3 : Nat)
        (rest s : List Nat),
      readString offsets orig
          (toInt32 (b0 + 256 * b1 + 65536 * b2 + 16777216 * b3)) = .ok s →
      goParseFloat64 s = none →
      readValue (fuel + 1) (6 :: b0 :: b1 :: b2 :: b3 :: rest) orig offsets =
        .fail (.invalidDouble s) := by
  refine ⟨?_, ?_, ?_, ?_⟩
  · intro fuel orig offsets b0 b1 b2 b3 rest s n hs hn
    rw [readValue_int_step, hs]
    dsimp only
    rw [hn]
  · intro fuel orig offsets b0 b1 b2 b3 rest s d hs hd
    rw [readValue_dbl_step, hs]
    dsimp only
    rw [hd]
  · intro fuel orig offsets b0 b1 b2 b3 rest s hs hn
    rw [readValue_int_step, hs]
    dsimp only
    rw [hn]
  · intro fuel orig offsets b0 b1 b2 b3 rest s hs hd
    rw [readValue_dbl_step, hs]
    dsimp only
    rw [hd]

/-- C9 witness: the claim's three scenarios — Integer `"-17"` decodes to
−17, Double `"3.5"` decodes to 3.5 (exactly representable, kept as the
rational 7/2), and the text `"abc"` fails for either numeric tag with the
error carrying that text. -/
theorem c9_witness :
    readValue 5 [5, 0, 0, 0, 0] [0x2d, 0x31, 0x37] [0] =
      .val (.integer (-17)) [] ∧
    readValue 5 [6, 0, 0, 0, 0] [0x33, 0x2e, 0x35] [0] =
      .val (.double (.finite (7 / 2))) [] ∧
    readValue 5 [5, 0, 0, 0, 0] [0x61, 0x62, 0x63] [0] =
      .fail (.invalidInteger [0x61, 0x62, 0x63]) ∧
    readValue 5 [6, 0, 0, 0, 0] [0x61, 0x62, 0x63] [0] =
      .fail (.invalidDouble [0x61, 0x62, 0x63]) := by
  refine ⟨?_, ?_, ?_, ?_⟩
  · exact c9_spec.1 4 [0x2d, 0x31, 0x37] [0] 0 0 0 0 [] [0x2d, 0x31, 0x37]
      (-17) rfl rfl
  · exact c9_spec.2.1 4 [0x33, 0x2e, 0x35] [0] 0 0 0 0 [] [0x33, 0x2e, 0x35]
      (.finite (7 / 2)) rfl
      (by norm_num [goParseFloat64, parseDec, splitDigits, isDigit, decVal,
        digitsVal, lowerBytes, lowerByte, maxFloat64])
  · exact c9_spec.2.2.1 4 [0x61, 0x62, 0x63] [0] 0 0 0 0 [] [0x61, 0x62, 0x63]
      rfl rfl
  · exact c9_spec.2.2.2 4 [0x61, 0x62, 0x63] [0] 0 0 0 0 [] [0x61, 0x62, 0x63]
      rfl rfl

end GGPack
